import Mathlib

/-!
Verification of the flashcard-automation repository.

Python strings are embedded as lists of characters; a Python call that can
raise an exception is embedded as a function returning an Option, with
none standing for the raised exception.  The docx / openai / googledocs
libraries are external collaborators: a loaded template document is
represented by the list of its tables dimensions, and a saved document by
a value recording the path and the cell writes.
-/

/-- A Python string, as a list of characters. -/
abbrev PyStr := List Char

/-- Sequencing of a Python for-loop whose body can raise: apply f to every
element in order, collecting results; the first exception aborts the whole
loop (none). -/
def optMap (f : α → Option β) : List α → Option (List β)
  | [] => some []
  | x :: xs =>
    match f x with
    | none => none
    | some y => (optMap f xs).map (y :: ·)

/-- Left fold whose step can raise; the first exception aborts the fold. -/
def optFoldl (f : β → α → Option β) : β → List α → Option β
  | b, [] => some b
  | b, x :: xs =>
    match f b x with
    | none => none
    | some b2 => optFoldl f b2 xs

/-- Python enumerate(xs) starting at n. -/
def pyEnumFrom (n : Nat) : List α → List (Nat × α)
  | [] => []
  | x :: xs => (n, x) :: pyEnumFrom (n + 1) xs

/-- Python enumerate(xs). -/
def pyEnum (l : List α) : List (Nat × α) := pyEnumFrom 0 l

/-- First index at which w occurs as a substring of s (Python str.find for a
needle w, restricted to the occurrence test used by str.partition). -/
def findSub (w : PyStr) : PyStr → Option Nat
  | [] => if w = [] then some 0 else none
  | c :: rest =>
    if w <+: c :: rest then some 0
    else (findSub w rest).map (· + 1)

/-- Python s.partition(w) from write_to_table: split at the first occurrence
of w into (before, sep, after); when w does not occur the result is
(s, "", ""); an empty separator raises ValueError (none). -/
def pythonPartition (s w : PyStr) : Option (PyStr × PyStr × PyStr) :=
  if w = [] then none
  else
    match findSub w s with
    | some i => some (s.take i, w, s.drop (i + w.length))
    | none => some (s, [], [])

/-- One styled run of text in a docx paragraph. -/
structure Run where
  text : PyStr
  bold : Bool
  font : String
  size : Nat
deriving Repr, DecidableEq

/-- The runs added to a cell paragraph by write_to_table for one sentence:
before (plain), sep (bold), after (plain), each only when non-empty. -/
def makeRuns (before sep after : PyStr) (font : String) (size : Nat) : List Run :=
  (if before = [] then [] else [⟨before, false, font, size⟩]) ++
  (if sep = [] then [] else [⟨sep, true, font, size⟩]) ++
  (if after = [] then [] else [⟨after, false, font, size⟩])

/-- Body of the write_to_table loop for one enumerated (sentence, bold word)
pair: compute the cell position, partition the sentence, build the runs.
A zero column count raises ZeroDivisionError; a row index beyond the table
raises IndexError. -/
def cellStep (nRows nCols : Nat) (font : String) (size : Nat)
    (p : Nat × (PyStr × PyStr)) : Option ((Nat × Nat) × List Run) :=
  if nCols = 0 then none
  else
    let rowIndex := p.1 / nCols
    let colIndex := p.1 % nCols
    if rowIndex < nRows then
      (pythonPartition p.2.1 p.2.2).map
        (fun bma => ((rowIndex, colIndex), makeRuns bma.1 bma.2.1 bma.2.2 font size))
    else none

/-- write_to_table from api_docx.py: writes zip(sentences, bold_words) into
the cells of an nRows x nCols table, in enumeration order. -/
def write_to_table (nRows nCols : Nat) (sentences bold_words : List PyStr)
    (font : String) (size : Nat) : Option (List ((Nat × Nat) × List Run)) :=
  optMap (cellStep nRows nCols font size) (pyEnum (sentences.zip bold_words))

/-- The output position used by reverse for input index i:
i / n_cols * n_cols + n_cols - 1 - i % n_cols. -/
def mirrorIdx (nCols index : Nat) : Nat :=
  index / nCols * nCols + nCols - 1 - index % nCols

/-- Python list item assignment ns[i] = v; out of range raises IndexError. -/
def setChecked (ns : List PyStr) (i : Nat) (v : PyStr) : Option (List PyStr) :=
  if i < ns.length then some (ns.set i v) else none

/-- Body of the reverse loop for one enumerated element: a zero column count
raises ZeroDivisionError at the index computation. -/
def revStep (nCols : Nat) (ns : List PyStr) (p : Nat × PyStr) : Option (List PyStr) :=
  if nCols = 0 then none else setChecked ns (mirrorIdx nCols p.1) p.2

/-- reverse from api_docx.py: mirror each row of a sequence arranged in a
table of n_cols columns, into a fresh list of table_size blanks. -/
def reverse (sequence : List PyStr) (n_cols table_size : Nat) : Option (List PyStr) :=
  optFoldl (revStep n_cols) (List.replicate table_size [' ']) (pyEnum sequence)

/-- The records dictionary built by convert_tuples_to_records: four parallel
sequences plus the record count. -/
structure RecordSet where
  base_sentences : List PyStr
  target_sentences : List PyStr
  base_bold_words : List PyStr
  target_bold_words : List PyStr
  n_records : Nat
deriving Repr, DecidableEq

/-- The four sequences of a RecordSet all have length equal to n_records. -/
def RecordSet.wf (r : RecordSet) : Prop :=
  r.base_sentences.length = r.n_records ∧
  r.target_sentences.length = r.n_records ∧
  r.base_bold_words.length = r.n_records ∧
  r.target_bold_words.length = r.n_records

/-- Configuration of DocxClient (the template path is replaced by the list
of table dimensions of the loaded template document, passed separately).
flashcardsPref is the field named flashcards_prefix in the source. -/
structure DocxClient where
  folder : String
  flashcardsPref : String
  n_rows : Nat
  n_cols : Nat
  base_font : String
  target_font : String
  font_size : Nat
deriving Repr, DecidableEq

/-- table_size, set to n_rows * n_cols by the DocxClient constructor. -/
def DocxClient.table_size (c : DocxClient) : Nat := c.n_rows * c.n_cols

/-- DocxClient._name_to_path: folder + flashcards_prefix + filename + ".docx". -/
def name_to_path (c : DocxClient) (filename : String) : String :=
  c.folder ++ c.flashcardsPref ++ filename ++ ".docx"

/-- The error message printed on a table-dimension mismatch. -/
def mismatchMsg (tableNo : Nat) (dims expected : Nat × Nat) : String :=
  "Error: Table #" ++ toString tableNo ++ " dimensions " ++ toString dims ++
    " do not match expected " ++ toString expected ++ "."

/-- Result of one call to _write_records_to_docx: either an early return with
a printed error (no document written), or a saved document recording the
path and the cells written to the two tables. -/
inductive WriteOutcome where
  | notEnoughTables (found : Nat)
  | dimMismatch (tableNo : Nat) (msg : String)
  | saved (path : String) (baseCells targetCells : List ((Nat × Nat) × List Run))
deriving Repr, DecidableEq

/-- Whether a document was saved. -/
def WriteOutcome.isSaved : WriteOutcome → Bool
  | .saved _ _ _ => true
  | _ => false

/-- DocxClient._write_records_to_docx.  tables holds the dimensions of the
tables of the loaded template; none models an exception escaping the call
(raised inside write_to_table or reverse). -/
def writeRecordsToDocx (c : DocxClient) (tables : List (Nat × Nat))
    (filename : String) (records : RecordSet) : Option WriteOutcome :=
  if tables.length < 2 then some (.notEnoughTables tables.length)
  else
    if tables.getD 0 (0, 0) ≠ (c.n_rows, c.n_cols) then
      some (.dimMismatch 1 (mismatchMsg 1 (tables.getD 0 (0, 0)) (c.n_rows, c.n_cols)))
    else if tables.getD 1 (0, 0) ≠ (c.n_rows, c.n_cols) then
      some (.dimMismatch 2 (mismatchMsg 2 (tables.getD 1 (0, 0)) (c.n_rows, c.n_cols)))
    else
      match write_to_table c.n_rows c.n_cols records.base_sentences
          records.base_bold_words c.base_font c.font_size with
      | none => none
      | some baseCells =>
        match reverse records.target_sentences c.n_cols c.table_size,
            reverse records.target_bold_words c.n_cols c.table_size with
        | some revS, some revB =>
          match write_to_table c.n_rows c.n_cols revS revB c.target_font c.font_size with
          | none => none
          | some targetCells =>
            some (.saved (name_to_path c filename) baseCells targetCells)
        | _, _ => none

/-- Python slice l[a:b] for 0 <= a <= b. -/
def pySlice (l : List α) (a b : Nat) : List α := (l.drop a).take (b - a)

/-- The records dictionary passed to page i by write_records: every list
value is sliced to [i*ts : min ((i+1)*ts) n_records]; the non-list value
n_records is passed through unchanged. -/
def chunkAt (r : RecordSet) (ts i : Nat) : RecordSet :=
  let a := i * ts
  let b := min ((i + 1) * ts) r.n_records
  { base_sentences := pySlice r.base_sentences a b
    target_sentences := pySlice r.target_sentences a b
    base_bold_words := pySlice r.base_bold_words a b
    target_bold_words := pySlice r.target_bold_words a b
    n_records := r.n_records }

/-- The 1-based page suffix name filename + "-" + (i+1). -/
def pageName (filename : String) (i : Nat) : String :=
  filename ++ "-" ++ toString (i + 1)

/-- DocxClient.write_records: single page when n_records fits the table,
otherwise ceil-divide into n_files chunks with 1-based suffixes.  Returns
the (path, name) pairs together with the per-page outcomes; none models an
exception escaping (including ZeroDivisionError when table_size = 0 in the
multi-page branch). -/
def write_records (c : DocxClient) (tables : List (Nat × Nat))
    (filename : String) (records : RecordSet) :
    Option (List (String × String) × List WriteOutcome) :=
  if records.n_records ≤ c.table_size then
    (writeRecordsToDocx c tables filename records).map
      (fun o => ([(name_to_path c filename, filename)], [o]))
  else
    if c.table_size = 0 then none
    else
      (optMap
          (fun i => writeRecordsToDocx c tables (pageName filename i)
            (chunkAt records c.table_size i))
          (List.range ((records.n_records + c.table_size - 1) / c.table_size))).map
        (fun outs =>
          ((List.range ((records.n_records + c.table_size - 1) / c.table_size)).map
            (fun i => (name_to_path c (pageName filename i),
              c.flashcardsPref ++ pageName filename i)), outs))

/-- A Python literal value, restricted to the fragment relevant to
extract_tuples: string literals, tuples and lists.  Literal kinds outside
the fragment (numbers, booleans, None, dictionary and set displays, bytes
and formatted string literals) are modelled as a parse failure of
literalEval; on such inputs the source extract_tuples also returns the
empty list, because its validation rejects any parsed value that is not a
list of 4-tuples of strings, so the two sides agree on the result of
extract_tuples. -/
inductive PyVal where
  | str (s : PyStr)
  | tuple (elems : List PyVal)
  | list (elems : List PyVal)

/-- Skip whitespace and comments; in comment mode (first argument true)
everything up to the end of the line is consumed. -/
def skipWsAux : Bool → PyStr → PyStr
  | _, [] => []
  | true, c :: rest =>
    if c = '\n' then skipWsAux false rest else skipWsAux true rest
  | false, c :: rest =>
    if c = ' ' ∨ c = '\t' ∨ c = '\n' ∨ c = '\r' ∨ c = Char.ofNat 12 then
      skipWsAux false rest
    else if c = '#' then skipWsAux true rest
    else c :: rest

/-- Drop leading whitespace and comments, as the Python tokenizer does
between tokens. -/
def skipWs (s : PyStr) : PyStr := skipWsAux false s

/-- CPython normalizes source line endings before tokenizing: CRLF and lone
CR both become LF. -/
def normalizeNewlines : PyStr → PyStr
  | [] => []
  | '\r' :: '\n' :: rest => '\n' :: normalizeNewlines rest
  | '\r' :: rest => '\n' :: normalizeNewlines rest
  | c :: rest => c :: normalizeNewlines rest

/-- Value of a hexadecimal digit. -/
def hexVal (c : Char) : Option Nat :=
  if '0' ≤ c ∧ c ≤ '9' then some (c.toNat - '0'.toNat)
  else if 'a' ≤ c ∧ c ≤ 'f' then some (c.toNat - 'a'.toNat + 10)
  else if 'A' ≤ c ∧ c ≤ 'F' then some (c.toNat - 'A'.toNat + 10)
  else none

/-- Value of an octal digit. -/
def octVal (c : Char) : Option Nat :=
  if '0' ≤ c ∧ c ≤ '7' then some (c.toNat - '0'.toNat) else none

/-- Read exactly k hexadecimal digits, accumulating their value. -/
def readHexAcc : Nat → Nat → PyStr → Option (Nat × PyStr)
  | acc, 0, s => some (acc, s)
  | _, _ + 1, [] => none
  | acc, k + 1, c :: rest =>
    match hexVal c with
    | none => none
    | some d => readHexAcc (acc * 16 + d) k rest

/-- Decode one Python string escape sequence (the characters after the
backslash): the single-character escapes, line continuation, octal escapes
of up to three digits, hex escapes of the forms backslash-x, backslash-u
and backslash-U with their exact digit counts, and the Python rule that an
unknown escape keeps the backslash and the character verbatim.  Named
escapes (backslash-N) would require the Unicode name table and are outside
the fragment, as are code points that are not valid Lean characters (lone
surrogates, which Lean Char cannot represent). -/
def decodeEscape : PyStr → Option (List Char × PyStr)
  | [] => none
  | c :: rest =>
    if c = '\n' then some ([], rest)
    else if c = '\\' then some (['\\'], rest)
    else if c = '\'' then some (['\''], rest)
    else if c = '"' then some (['"'], rest)
    else if c = 'n' then some (['\n'], rest)
    else if c = 't' then some (['\t'], rest)
    else if c = 'r' then some (['\r'], rest)
    else if c = 'a' then some ([Char.ofNat 7], rest)
    else if c = 'b' then some ([Char.ofNat 8], rest)
    else if c = 'f' then some ([Char.ofNat 12], rest)
    else if c = 'v' then some ([Char.ofNat 11], rest)
    else
      match octVal c with
      | some d1 =>
        match rest with
        | c2 :: rest2 =>
          match octVal c2 with
          | some d2 =>
            match rest2 with
            | c3 :: rest3 =>
              match octVal c3 with
              | some d3 => some ([Char.ofNat (d1 * 64 + d2 * 8 + d3)], rest3)
              | none => some ([Char.ofNat (d1 * 8 + d2)], rest2)
            | [] => some ([Char.ofNat (d1 * 8 + d2)], rest2)
          | none => some ([Char.ofNat d1], rest)
        | [] => some ([Char.ofNat d1], rest)
      | none =>
        if c = 'x' then
          match readHexAcc 0 2 rest with
          | some (n, r) => some ([Char.ofNat n], r)
          | none => none
        else if c = 'u' then
          match readHexAcc 0 4 rest with
          | some (n, r) =>
            if n < 0xD800 ∨ (0xDFFF < n ∧ n < 0x110000) then
              some ([Char.ofNat n], r)
            else none
          | none => none
        else if c = 'U' then
          match readHexAcc 0 8 rest with
          | some (n, r) =>
            if n < 0xD800 ∨ (0xDFFF < n ∧ n < 0x110000) then
              some ([Char.ofNat n], r)
            else none
          | none => none
        else if c = 'N' then none
        else some (['\\', c], rest)

/-- Scan the body of a string literal up to its closing quote, given the
quote character, whether the literal is raw and whether it is triple
quoted.  In a raw literal a backslash keeps itself and the following
character (so it still prevents the quote from closing the literal); in a
non-raw literal escape sequences are decoded; a bare newline inside a
single-quoted literal is a syntax error.  Fuel bounds the scan by the
input length. -/
def scanStrBody (q : Char) (raw triple : Bool) : Nat → PyStr → Option (PyStr × PyStr)
  | 0, _ => none
  | _ + 1, [] => none
  | fuel + 1, c :: rest =>
    if c = q then
      if triple then
        match rest with
        | c2 :: c3 :: rest3 =>
          if c2 = q ∧ c3 = q then some ([], rest3)
          else (scanStrBody q raw triple fuel rest).map (fun p => (c :: p.1, p.2))
        | _ => (scanStrBody q raw triple fuel rest).map (fun p => (c :: p.1, p.2))
      else some ([], rest)
    else if c = '\\' then
      if raw then
        match rest with
        | [] => none
        | c2 :: rest2 =>
          (scanStrBody q raw triple fuel rest2).map
            (fun p => ('\\' :: c2 :: p.1, p.2))
      else
        match decodeEscape rest with
        | none => none
        | some (cs, r) =>
          (scanStrBody q raw triple fuel r).map (fun p => (cs ++ p.1, p.2))
    else if ¬ triple ∧ c = '\n' then none
    else (scanStrBody q raw triple fuel rest).map (fun p => (c :: p.1, p.2))

/-- Parse one quoted string body after an optional prefix: detect single or
triple quoting and scan the body. -/
def parseQuoted (raw : Bool) : PyStr → Option (PyStr × PyStr)
  | [] => none
  | q :: t =>
    if q = '\'' ∨ q = '"' then
      match t with
      | c2 :: c3 :: t3 =>
        if c2 = q ∧ c3 = q then scanStrBody q raw true (t3.length + 1) t3
        else scanStrBody q raw false (t.length + 1) t
      | _ => scanStrBody q raw false (t.length + 1) t
    else none

/-- Parse one Python string literal: an optional raw or unicode prefix (r,
R, u, U) followed by a quoted body.  Bytes and formatted string prefixes
are outside the fragment; a bytes literal is not a str, so the source
validation rejects any value containing one and extract_tuples returns []
on both sides, and literal_eval itself raises on a formatted string. -/
def parseStrLit : PyStr → Option (PyStr × PyStr)
  | 'r' :: t => parseQuoted true t
  | 'R' :: t => parseQuoted true t
  | 'u' :: t => parseQuoted false t
  | 'U' :: t => parseQuoted false t
  | t => parseQuoted false t

mutual

/-- Parse one literal value (string with implicit concatenation, list, or
parenthesized form), returning it and the unconsumed remainder.  A
parenthesized single value without a comma is that value; with a comma,
or empty, it is a tuple.  Fuel bounds the recursion depth. -/
def parseVal : Nat → PyStr → Option (PyVal × PyStr)
  | 0, _ => none
  | fuel + 1, input =>
    match skipWs input with
    | '[' :: rest => (parseItems fuel ']' rest).map (fun p => (PyVal.list p.1, p.2.2))
    | '(' :: rest =>
      match parseItems fuel ')' rest with
      | some ([v], false, r) => some (v, r)
      | some (vs, _, r) => some (PyVal.tuple vs, r)
      | none => none
    | s =>
      match parseStrLit s with
      | none => none
      | some (str1, r) =>
        match parseStrTail fuel r with
        | none => none
        | some (str2, r2) => some (PyVal.str (str1 ++ str2), r2)

/-- Concatenate any further adjacent string literals (implicit string
concatenation), returning the concatenated tail. -/
def parseStrTail : Nat → PyStr → Option (PyStr × PyStr)
  | 0, _ => none
  | fuel + 1, input =>
    match parseStrLit (skipWs input) with
    | some (str1, r) =>
      match parseStrTail fuel r with
      | none => none
      | some (str2, r2) => some (str1 ++ str2, r2)
    | none => some ([], input)

/-- Parse comma-separated values up to the closing bracket (allowing a
trailing comma), returning them, whether a comma was seen, and the
unconsumed remainder. -/
def parseItems : Nat → Char → PyStr → Option (List PyVal × Bool × PyStr)
  | 0, _, _ => none
  | fuel + 1, close, input =>
    match skipWs input with
    | [] => none
    | c :: rest =>
      if c = close then some ([], false, rest)
      else
        match parseVal fuel (c :: rest) with
        | none => none
        | some (v, r) =>
          match skipWs r with
          | [] => none
          | c2 :: rest2 =>
            if c2 = close then some ([v], false, rest2)
            else if c2 = ',' then
              (parseItems fuel close rest2).map (fun p => (v :: p.1, true, p.2.2))
            else none

end

/-- ast.literal_eval restricted to the fragment of PyVal: normalize line
endings, parse one literal followed only by whitespace and comments; none
models the ValueError / SyntaxError raised on malformed input. -/
def literalEval (s : PyStr) : Option PyVal :=
  match parseVal (2 * s.length + 2) (normalizeNewlines s) with
  | some (v, rest) => if skipWs rest = [] then some v else none
  | none => none

/-- Python content.find(ch): index of the first occurrence (none for -1). -/
def pyFind : PyStr → Char → Option Nat
  | [], _ => none
  | c :: rest, ch => if c = ch then some 0 else (pyFind rest ch).map (· + 1)

/-- Python content.rfind(ch): index of the last occurrence (none for -1). -/
def pyRFind (s : PyStr) (ch : Char) : Option Nat :=
  (pyFind s.reverse ch).map (fun i => s.length - 1 - i)

/-- The validation predicate of extract_tuples for one element: a tuple of
exactly four strings. -/
def isTuple4Str : PyVal → Bool
  | .tuple es => es.length = 4 && es.all (fun e => match e with | .str _ => true | _ => false)
  | _ => false

/-- Unpack a validated 4-tuple into its four string fields. -/
def tupleFields : PyVal → PyStr × PyStr × PyStr × PyStr
  | .tuple [.str a, .str b, .str c, .str d] => (a, b, c, d)
  | _ => ([], [], [], [])

/-- extract_tuples from api_chatgpt.py: slice from the first opening to the
last closing square bracket, literal-parse, validate that the value is a
list of 4-string tuples, and otherwise return the empty list.  The function
is total: every parse exception is converted into an empty result. -/
def extract_tuples (content : PyStr) :
    List (PyStr × PyStr × PyStr × PyStr) :=
  match pyFind content '[', pyRFind content ']' with
  | some start, some stop =>
    let list_str := (content.drop start).take (stop + 1 - start)
    match literalEval list_str with
    | some (.list vs) => if vs.all isTuple4Str then vs.map tupleFields else []
    | _ => []
  | _, _ => []

/-- A generated 4-tuple (target sentence, base sentence, bold target word,
bold base word). -/
abbrev Tup4 := PyStr × PyStr × PyStr × PyStr

/-- Body of the outer loop of convert_tuples_to_records for one word:
look the word up (a missing word raises KeyError) and append each field of
each of its tuples to the four accumulated lists. -/
def convertStep (wt : List (String × List Tup4))
    (acc : List PyStr × List PyStr × List PyStr × List PyStr) (word : String) :
    Option (List PyStr × List PyStr × List PyStr × List PyStr) :=
  match wt.lookup word with
  | none => none
  | some tups =>
    some (acc.1 ++ tups.map (fun t => t.2.1),
      acc.2.1 ++ tups.map (fun t => t.1),
      acc.2.2.1 ++ tups.map (fun t => t.2.2.2),
      acc.2.2.2 ++ tups.map (fun t => t.2.2.1))

/-- convert_tuples_to_records from main.py: flatten the per-word tuple lists
in word order into four parallel lists (base sentences, target sentences,
bold base words, bold target words) and record n_records as the length of
base_sentences.  The accumulator components are, in order, base_sentences,
target_sentences, bold_base_words, bold_target_words. -/
def convert_tuples_to_records (words : List String)
    (words_to_tuples : List (String × List Tup4)) : Option RecordSet :=
  (optFoldl (convertStep words_to_tuples) ([], [], [], []) words).map
    (fun acc =>
      { base_sentences := acc.1
        target_sentences := acc.2.1
        base_bold_words := acc.2.2.1
        target_bold_words := acc.2.2.2
        n_records := acc.1.length })


/-! ### Lemmas about the loop combinators -/

theorem optMap_eq_none_of_mem (f : α → Option β) (l : List α) (x : α)
    (hx : x ∈ l) (hfx : f x = none) : optMap f l = none := by
  induction l with
  | nil => cases hx
  | cons a as ih =>
    rcases List.mem_cons.mp hx with h | h
    · subst h; simp [optMap, hfx]
    · cases hfa : f a <;> simp [optMap, hfa, ih h]

theorem optMap_const_some (f : α → Option β) (l : List α) (c : β)
    (h : ∀ x ∈ l, f x = some c) : optMap f l = some (l.map (fun _ => c)) := by
  induction l with
  | nil => rfl
  | cons a as ih =>
    simp [optMap, h a (List.mem_cons_self a as),
      ih (fun x hx => h x (List.mem_cons_of_mem a hx))]

theorem optFoldl_append (f : β → α → Option β) (b : β) (xs ys : List α) :
    optFoldl f b (xs ++ ys) = (optFoldl f b xs).bind (fun b2 => optFoldl f b2 ys) := by
  induction xs generalizing b with
  | nil => simp [optFoldl]
  | cons x xs ih =>
    simp only [List.cons_append, optFoldl]
    cases f b x <;> simp [ih]

theorem optFoldl_singleton (f : β → α → Option β) (b : β) (x : α) :
    optFoldl f b [x] = f b x := by
  cases h : f b x <;> simp [optFoldl, h]

theorem pyEnumFrom_append (n : Nat) (xs ys : List α) :
    pyEnumFrom n (xs ++ ys) = pyEnumFrom n xs ++ pyEnumFrom (n + xs.length) ys := by
  induction xs generalizing n with
  | nil => simp [pyEnumFrom]
  | cons x xs ih =>
    have hn : n + 1 + xs.length = n + (xs.length + 1) := by omega
    simp only [List.cons_append, List.append_eq, pyEnumFrom, ih, List.length_cons, hn]

theorem pyEnum_concat (l : List α) (v : α) :
    pyEnum (l ++ [v]) = pyEnum l ++ [(l.length, v)] := by
  have h := pyEnumFrom_append 0 l [v]
  simpa [pyEnum, pyEnumFrom] using h

theorem pyEnumFrom_get? (n : Nat) (l : List α) (i : Nat) :
    (pyEnumFrom n l).get? i = (l.get? i).map (fun x => (n + i, x)) := by
  induction l generalizing n i with
  | nil => simp [pyEnumFrom]
  | cons x xs ih =>
    cases i with
    | zero => simp [pyEnumFrom]
    | succ j =>
      simp only [pyEnumFrom, List.get?_cons_succ, ih]
      cases xs.get? j <;> simp <;> omega

/-! ### The mirrored column mapping -/

theorem mirrorIdx_eq (c p : Nat) (hc : 0 < c) :
    mirrorIdx c p = p / c * c + (c - 1 - p % c) := by
  have h1 : p % c ≤ c - 1 := Nat.le_pred_of_lt (Nat.mod_lt p hc)
  unfold mirrorIdx
  rw [Nat.add_sub_assoc hc, Nat.add_sub_assoc h1]

theorem mirror_bound_aux (q r c m : Nat) (hr : r < c) (hq : q < m) :
    q * c + (c - 1 - r) < c * m := by
  have h4 : (q + 1) * c ≤ m * c := Nat.mul_le_mul_right c hq
  have h5 : (q + 1) * c = q * c + c := by ring
  have h6 : m * c = c * m := Nat.mul_comm m c
  omega

theorem mirrorIdx_lt (c T p : Nat) (hc : 0 < c) (hd : c ∣ T) (hp : p < T) :
    mirrorIdx c p < T := by
  obtain ⟨m, rfl⟩ := hd
  rw [mirrorIdx_eq c p hc]
  exact mirror_bound_aux _ _ _ _ (Nat.mod_lt p hc)
    ((Nat.div_lt_iff_lt_mul hc).mpr (Nat.mul_comm c m ▸ hp))

theorem mirrorIdx_invol (c p : Nat) (hc : 0 < c) :
    mirrorIdx c (mirrorIdx c p) = p := by
  have h1 : p % c < c := Nat.mod_lt p hc
  have h2 : c * (p / c) + p % c = p := Nat.div_add_mod p c
  rw [mirrorIdx_eq c p hc, mirrorIdx_eq c _ hc]
  have h3 : c - 1 - p % c < c := by omega
  have h4 : (p / c * c + (c - 1 - p % c)) / c = p / c := by
    rw [Nat.mul_comm (p / c) c, Nat.mul_add_div hc]
    simp [Nat.div_eq_of_lt h3]
  have h5 : (p / c * c + (c - 1 - p % c)) % c = c - 1 - p % c := by
    rw [Nat.mul_comm (p / c) c, Nat.mul_add_mod]
    exact Nat.mod_eq_of_lt h3
  rw [h4, h5]
  have h6 : c * (p / c) = p / c * c := Nat.mul_comm c (p / c)
  omega

/-- Value at position i of a partially filled output list, with the blank
placeholder for positions that are out of range. -/
def getBlank (l : List PyStr) (i : Nat) : PyStr := (l.get? i).getD [' ']

theorem getBlank_nil (i : Nat) : getBlank [] i = [' '] := by simp [getBlank]

theorem getBlank_concat_self (l : List PyStr) (v : PyStr) :
    getBlank (l ++ [v]) l.length = v := by
  simp [getBlank, List.get?_concat_length]

theorem getBlank_concat_ne (l : List PyStr) (v : PyStr) (i : Nat) (h : i ≠ l.length) :
    getBlank (l ++ [v]) i = getBlank l i := by
  by_cases hi : i < l.length
  · simp [getBlank, List.getElem?_append_left hi]
  · have h2 : (l ++ [v])[i]? = none := List.getElem?_eq_none (by simp; omega)
    have h3 : l[i]? = none := List.getElem?_eq_none (by omega)
    simp [getBlank, h2, h3]

/-- Characterization of reverse: whenever the column count is positive and
divides the table size and the input fits the table, the loop succeeds and
position p of the output holds the input value at the mirrored index (or
the blank placeholder when that index is beyond the input). -/
theorem reverse_spec (l : List PyStr) (c T : Nat) (hc : 0 < c) (hd : c ∣ T)
    (hl : l.length ≤ T) :
    ∃ res, reverse l c T = some res ∧ res.length = T ∧
      ∀ p, p < T → res.get? p = some (getBlank l (mirrorIdx c p)) := by
  induction l using List.reverseRecOn with
  | nil =>
    refine ⟨List.replicate T [' '], rfl, List.length_replicate T [' '], ?_⟩
    intro p hp
    rw [List.get?_eq_get (by simpa using hp), getBlank_nil]
    simp [List.get_replicate]
  | append_singleton l v ih =>
    have hll : l.length ≤ T := by simp at hl; omega
    have hllT : l.length < T := by simp at hl; omega
    obtain ⟨res, hrev, hlen, hget⟩ := ih hll
    have hpos : mirrorIdx c l.length < T := mirrorIdx_lt c T l.length hc hd hllT
    have hc0 : ¬ c = 0 := Nat.pos_iff_ne_zero.mp hc
    have hlt : mirrorIdx c l.length < res.length := by rw [hlen]; exact hpos
    have hwrite : reverse (l ++ [v]) c T = some (res.set (mirrorIdx c l.length) v) := by
      unfold reverse at hrev ⊢
      rw [pyEnum_concat, optFoldl_append, hrev, Option.some_bind, optFoldl_singleton]
      simp [revStep, setChecked, hc0, hlt]
    refine ⟨res.set (mirrorIdx c l.length) v, hwrite, by simp [hlen], ?_⟩
    intro p hp
    by_cases hpe : p = mirrorIdx c l.length
    · subst hpe
      rw [List.get?_set_eq_of_lt v hlt, mirrorIdx_invol c l.length hc,
        getBlank_concat_self]
    · have hne : mirrorIdx c p ≠ l.length := by
        intro h
        apply hpe
        rw [← mirrorIdx_invol c p hc, h]
      rw [List.get?_set_ne v res (fun h => hpe h.symm), hget p hp,
        getBlank_concat_ne l v (mirrorIdx c p) hne]

/-- Claim C3: for every input sequence of length at most capacity, with the
GridSpec invariants (cols positive, capacity a multiple of cols), reverse
returns a list of fixed length capacity in which the value at input index i
is stored at output position i / cols * cols + (cols - 1 - i mod cols), and
every output slot that is not such a position holds the blank placeholder. -/
theorem mirror_places_values (l : List PyStr) (cols cap : Nat)
    (hc : 0 < cols) (hd : cols ∣ cap) (hl : l.length ≤ cap) :
    ∃ res, reverse l cols cap = some res ∧ res.length = cap ∧
      (∀ i (h : i < l.length), res.get? (mirrorIdx cols i) = some (l.get ⟨i, h⟩)) ∧
      (∀ p, p < cap → (∀ i, i < l.length → mirrorIdx cols i ≠ p) →
        res.get? p = some [' ']) := by
  obtain ⟨res, h1, h2, h3⟩ := reverse_spec l cols cap hc hd hl
  refine ⟨res, h1, h2, ?_, ?_⟩
  · intro i hi
    have hip : mirrorIdx cols i < cap :=
      mirrorIdx_lt cols cap i hc hd (lt_of_lt_of_le hi hl)
    rw [h3 _ hip, mirrorIdx_invol cols i hc]
    simp [getBlank, List.get?_eq_get hi, List.getElem?_eq_getElem hi]
  · intro p hp hnone
    rw [h3 p hp]
    have hout : ¬ mirrorIdx cols p < l.length := by
      intro hlt
      exact hnone (mirrorIdx cols p) hlt (mirrorIdx_invol cols p hc)
    simp [getBlank, List.getElem?_eq_none (by omega : l.length ≤ mirrorIdx cols p)]

/-- Witness for C3 at the example of the specification:
mirror([v0, v1, v2], cols = 3, capacity = 3) = [v2, v1, v0]. -/
theorem mirror_places_values_witness :
    (∃ res, reverse [['v', '0'], ['v', '1'], ['v', '2']] 3 3 = some res ∧
      res.length = 3 ∧
      (∀ i (h : i < [['v', '0'], ['v', '1'], ['v', '2']].length),
        res.get? (mirrorIdx 3 i) =
          some ([['v', '0'], ['v', '1'], ['v', '2']].get ⟨i, h⟩)) ∧
      (∀ p, p < 3 →
        (∀ i, i < [['v', '0'], ['v', '1'], ['v', '2']].length → mirrorIdx 3 i ≠ p) →
        res.get? p = some [' '])) ∧
    reverse [['v', '0'], ['v', '1'], ['v', '2']] 3 3 =
      some [['v', '2'], ['v', '1'], ['v', '0']] :=
  ⟨mirror_places_values _ 3 3 (by decide) (by decide) (by decide), by decide⟩

/-- Claim C4: when the input length equals the capacity and cols divides the
capacity evenly (cols positive), reverse is an involution: applying it twice
returns the original sequence. -/
theorem mirror_involution (l : List PyStr) (cols cap : Nat)
    (hc : 0 < cols) (hd : cols ∣ cap) (hl : l.length = cap) :
    ∃ r1, reverse l cols cap = some r1 ∧ reverse r1 cols cap = some l := by
  obtain ⟨r1, h1, hlen1, hget1⟩ := reverse_spec l cols cap hc hd (le_of_eq hl)
  obtain ⟨r2, h2, hlen2, hget2⟩ := reverse_spec r1 cols cap hc hd (le_of_eq hlen1)
  refine ⟨r1, h1, ?_⟩
  rw [h2]
  congr 1
  apply List.ext_get?'
  intro n hn
  have hnT : n < cap := by rw [hlen2, hl] at hn; simpa using hn
  have hmi : mirrorIdx cols n < cap := mirrorIdx_lt cols cap n hc hd hnT
  have hv : r1.get? (mirrorIdx cols n) =
      some (getBlank l (mirrorIdx cols (mirrorIdx cols n))) := hget1 _ hmi
  rw [mirrorIdx_invol cols n hc] at hv
  have hln : n < l.length := hl ▸ hnT
  have hval : getBlank r1 (mirrorIdx cols n) = getBlank l n := by
    unfold getBlank
    rw [hv]
    rfl
  rw [hget2 n hnT, hval]
  simp [getBlank, List.get?_eq_getElem?, List.getElem?_eq_getElem hln]

/-- Witness for C4: a concrete 2 x 3 grid sequence of six values. -/
theorem mirror_involution_witness :
    ∃ r1, reverse [['a'], ['b'], ['c'], ['d'], ['e'], ['f']] 3 6 = some r1 ∧
      reverse r1 3 6 = some [['a'], ['b'], ['c'], ['d'], ['e'], ['f']] :=
  mirror_involution _ 3 6 (by decide) (by decide) (by decide)

/-! ### The emphasis split -/

theorem findSub_some (w s : PyStr) (i : Nat) (h : findSub w s = some i) :
    w <+: s.drop i ∧ ∀ j, j < i → ¬ w <+: s.drop j := by
  induction s generalizing i with
  | nil =>
    unfold findSub at h
    by_cases hw : w = []
    · rw [if_pos hw] at h
      cases h
      refine ⟨by simp [hw], ?_⟩
      intro j hj
      omega
    · rw [if_neg hw] at h
      cases h
  | cons c rest ih =>
    unfold findSub at h
    by_cases hp : w <+: c :: rest
    · rw [if_pos hp] at h
      cases h
      refine ⟨by simpa using hp, ?_⟩
      intro j hj
      omega
    · rw [if_neg hp] at h
      cases hfr : findSub w rest with
      | none => rw [hfr] at h; cases h
      | some k =>
        rw [hfr] at h
        simp only [Option.map_some'] at h
        cases h
        obtain ⟨h1, h2⟩ := ih k hfr
        refine ⟨by simpa using h1, ?_⟩
        intro j hj
        cases j with
        | zero => simpa using hp
        | succ j2 => simpa using h2 j2 (by omega)

theorem findSub_none (w s : PyStr) (hw : w ≠ []) (h : findSub w s = none) :
    ∀ j, ¬ w <+: s.drop j := by
  induction s with
  | nil =>
    intro j hj
    rw [List.drop_nil] at hj
    exact hw (List.prefix_nil.mp hj)
  | cons c rest ih =>
    unfold findSub at h
    by_cases hp : w <+: c :: rest
    · rw [if_pos hp] at h
      cases h
    · rw [if_neg hp] at h
      cases hfr : findSub w rest with
      | some k => rw [hfr] at h; simp at h
      | none =>
        intro j
        cases j with
        | zero => simpa using hp
        | succ j2 => simpa using ih hfr j2

theorem findSub_concat (w s : PyStr) (i : Nat) (hpre : w <+: s.drop i) :
    s.take i ++ w ++ s.drop (i + w.length) = s := by
  obtain ⟨t, ht⟩ := hpre
  have h1 : s.drop (i + w.length) = t := by
    rw [← List.drop_drop, ← ht, List.drop_left]
  rw [h1, List.append_assoc, ht, List.take_append_drop]

theorem makeRuns_join (b m a : PyStr) (font : String) (sz : Nat) :
    ((makeRuns b m a font sz).map Run.text).join = b ++ m ++ a := by
  unfold makeRuns
  by_cases hb : b = [] <;> by_cases hm : m = [] <;> by_cases ha : a = [] <;>
    simp [hb, hm, ha]

theorem makeRuns_bold (b m a : PyStr) (font : String) (sz : Nat) :
    ((makeRuns b m a font sz).filter (fun r => r.bold)).map Run.text =
      (if m = [] then [] else [m]) := by
  unfold makeRuns
  by_cases hb : b = [] <;> by_cases hm : m = [] <;> by_cases ha : a = [] <;>
    simp [hb, hm, ha]

/-- Counterexample to claim C5 as stated: for the empty keyword (which the
claim quantification includes) the split is not produced at all; the code
raises ValueError from s.partition with an empty separator instead of
emitting anything. -/
theorem partition_empty_keyword_counterexample :
    pythonPartition "abc".data [] = none := by decide

/-- Claim C5 (amended to non-empty keywords): the partition of sentence s at
keyword w splits s into before, match and after whose concatenation is s;
either the match equals w and sits at the first occurrence of w in s, or w
does not occur in s at all and the whole sentence is the before part.  The
emitted runs concatenate back to s (the record is never dropped) and the
emphasized runs are exactly one copy of w when w occurs, none otherwise. -/
theorem partition_first_occurrence (s w : PyStr) (font : String) (sz : Nat)
    (hw : w ≠ []) :
    ∃ b m a, pythonPartition s w = some (b, m, a) ∧
      b ++ m ++ a = s ∧
      ((m = w ∧ w <+: s.drop b.length ∧ ∀ j, j < b.length → ¬ w <+: s.drop j) ∨
        (m = [] ∧ a = [] ∧ b = s ∧ ∀ j, ¬ w <+: s.drop j)) ∧
      ((makeRuns b m a font sz).map Run.text).join = s ∧
      ((makeRuns b m a font sz).filter (fun r => r.bold)).map Run.text =
        (if m = [] then [] else [w]) := by
  unfold pythonPartition
  rw [if_neg hw]
  cases hf : findSub w s with
  | some i =>
    obtain ⟨hpre, hmin⟩ := findSub_some w s i hf
    have hilen : i ≤ s.length := by
      by_contra hge
      push_neg at hge
      rw [List.drop_eq_nil_of_le (by omega)] at hpre
      exact hw (List.prefix_nil.mp hpre)
    have hsplit : s.take i ++ w ++ s.drop (i + w.length) = s := findSub_concat w s i hpre
    have hblen : (s.take i).length = i := by rw [List.length_take]; omega
    refine ⟨s.take i, w, s.drop (i + w.length), rfl, hsplit,
      Or.inl ⟨rfl, ?_, ?_⟩, ?_, ?_⟩
    · rw [hblen]; exact hpre
    · rw [hblen]; exact hmin
    · rw [makeRuns_join]; exact hsplit
    · rw [makeRuns_bold, if_neg hw]
  | none =>
    refine ⟨s, [], [], rfl, by simp, Or.inr ⟨rfl, rfl, rfl, findSub_none w s hw hf⟩, ?_, ?_⟩
    · rw [makeRuns_join]; simp
    · rw [makeRuns_bold]; simp

/-- Witness for C5 at the example of the specification: sentence
"The piercing whistling of the wind" with keyword "piercing" splits into
"The " / "piercing" (emphasized) / " whistling of the wind". -/
theorem partition_first_occurrence_witness :
    (∃ b m a,
      pythonPartition "The piercing whistling of the wind".data "piercing".data =
        some (b, m, a) ∧
      b ++ m ++ a = "The piercing whistling of the wind".data ∧
      ((m = "piercing".data ∧
          "piercing".data <+: "The piercing whistling of the wind".data.drop b.length ∧
          ∀ j, j < b.length →
            ¬ "piercing".data <+: "The piercing whistling of the wind".data.drop j) ∨
        (m = [] ∧ a = [] ∧ b = "The piercing whistling of the wind".data ∧
          ∀ j, ¬ "piercing".data <+: "The piercing whistling of the wind".data.drop j)) ∧
      ((makeRuns b m a "Arial" 15).map Run.text).join =
        "The piercing whistling of the wind".data ∧
      ((makeRuns b m a "Arial" 15).filter (fun r => r.bold)).map Run.text =
        (if m = [] then [] else ["piercing".data])) ∧
    pythonPartition "The piercing whistling of the wind".data "piercing".data =
      some ("The ".data, "piercing".data, " whistling of the wind".data) :=
  ⟨partition_first_occurrence _ _ "Arial" 15 (by decide), by decide⟩

/-! ### The empty-keyword failure mode -/

theorem cellStep_empty_bold (nRows nCols : Nat) (font : String) (sz : Nat)
    (i : Nat) (s : PyStr) :
    cellStep nRows nCols font sz (i, (s, [])) = none := by
  unfold cellStep
  by_cases h0 : nCols = 0
  · rw [if_pos h0]
  · rw [if_neg h0]
    by_cases hr : i / nCols < nRows
    · simp [hr, pythonPartition]
    · simp [hr]

/-- Claim C10: the cell-writing operation is only total for non-empty
keywords.  For every sentence, partition at the empty separator raises;
hence write_to_table raises as soon as the processed pairs contain an empty
bold word, instead of falling back to an unemphasized sentence.  Yet the
tuple-extractor validation accepts 4-tuples whose keyword fields are empty
strings, and a reply carrying one reaches rendering intact. -/
theorem empty_keyword_raises :
    (∀ s : PyStr, pythonPartition s [] = none) ∧
    (∀ (nRows nCols : Nat) (font : String) (sz : Nat)
      (sentences bold_words : List PyStr) (i : Nat)
      (hi : i < sentences.length) (hbi : i < bold_words.length),
      bold_words.get ⟨i, hbi⟩ = [] →
      write_to_table nRows nCols sentences bold_words font sz = none) ∧
    (∀ a b : PyStr,
      isTuple4Str (.tuple [.str a, .str b, .str [], .str []]) = true) ∧
    extract_tuples "[('s1', 's2', '', '')]".data =
      [("s1".data, "s2".data, [], [])] := by
  refine ⟨fun _ => rfl, ?_, fun _ _ => rfl, by decide⟩
  intro nRows nCols font sz sentences bold_words i hi hbi hempty
  unfold write_to_table
  apply optMap_eq_none_of_mem _ _ (i, (sentences.get ⟨i, hi⟩, []))
  · apply List.get?_mem
    unfold pyEnum
    rw [pyEnumFrom_get? 0 _ i]
    have hz : (sentences.zip bold_words).get? i =
        some (sentences.get ⟨i, hi⟩, []) := by
      rw [List.get?_eq_getElem?]
      apply List.getElem?_zip_eq_some.mpr
      constructor
      · rw [List.getElem?_eq_getElem hi, List.get_eq_getElem]
      · have hb : bold_words[i] = [] :=
          (List.get_eq_getElem bold_words ⟨i, hbi⟩) ▸ hempty
        rw [List.getElem?_eq_getElem hbi, hb]
    rw [hz]
    simp
  · exact cellStep_empty_bold nRows nCols font sz i (sentences.get ⟨i, hi⟩)

/-- Witness for C10: a concrete sentence with an empty bold word makes the
table write raise. -/
theorem empty_keyword_raises_witness :
    write_to_table 4 3 [['h', 'i']] [[]] "Arial" 15 = none :=
  empty_keyword_raises.2.1 4 3 "Arial" 15 [['h', 'i']] [[]] 0 (by decide)
    (by decide) (by decide)

/-! ### The tuple extractor -/

/-- Claim C6: extract_tuples returns exactly the tuples of a well-formed
literal list of 4-string tuples enclosed between the first opening and the
last closing square bracket, in their original order; when either bracket
is absent, or when the parsed content fails the whole-list validation, it
returns the empty sequence.  The embedding is a total function: every parse
exception of the source is a none of literalEval, converted to []. -/
theorem extract_tuples_spec (content : PyStr) :
    (∀ start stop vs,
      pyFind content '[' = some start →
      pyRFind content ']' = some stop →
      literalEval ((content.drop start).take (stop + 1 - start)) =
        some (PyVal.list vs) →
      vs.all isTuple4Str = true →
      extract_tuples content = vs.map tupleFields) ∧
    ((pyFind content '[' = none ∨ pyRFind content ']' = none) →
      extract_tuples content = []) ∧
    (∀ start stop vs,
      pyFind content '[' = some start →
      pyRFind content ']' = some stop →
      literalEval ((content.drop start).take (stop + 1 - start)) =
        some (PyVal.list vs) →
      vs.all isTuple4Str = false →
      extract_tuples content = []) := by
  refine ⟨?_, ?_, ?_⟩
  · intro start stop vs h1 h2 h3 h4
    unfold extract_tuples
    rw [h1, h2]
    simp [h3, h4]
  · intro h
    unfold extract_tuples
    rcases h with h | h
    · rw [h]
    · cases hf : pyFind content '[' with
      | none => rfl
      | some s => rw [h]
  · intro start stop vs h1 h2 h3 h4
    unfold extract_tuples
    rw [h1, h2]
    simp [h3, h4]

/-- Witness for C6: a model reply with surrounding chatter around a literal
list of two 4-string tuples extracts exactly those tuples in order. -/
theorem extract_tuples_spec_witness :
    extract_tuples
      "Sure: [('don\\'t', 'a' 'b', '\\n', 'd'),  # c\n ('e', 'f', 'g', 'h')] bye".data =
      [(PyVal.tuple [.str "don't".data, .str "ab".data, .str "\n".data,
          .str "d".data]),
        (PyVal.tuple [.str "e".data, .str "f".data, .str "g".data,
          .str "h".data])].map tupleFields :=
  (extract_tuples_spec _).1 6 65
    [PyVal.tuple [.str "don't".data, .str "ab".data, .str "\n".data, .str "d".data],
      PyVal.tuple [.str "e".data, .str "f".data, .str "g".data, .str "h".data]]
    rfl rfl rfl rfl

/-! ### The record aggregator -/

/-- All generated tuples, flattened in word order then tuple order. -/
def flatTuples (words : List String) (wt : List (String × List Tup4)) : List Tup4 :=
  (words.map (fun w => (wt.lookup w).getD [])).join

theorem convert_loop (wt : List (String × List Tup4)) (words : List String)
    (acc : List PyStr × List PyStr × List PyStr × List PyStr)
    (h : ∀ w ∈ words, (wt.lookup w).isSome) :
    optFoldl (convertStep wt) acc words =
      some (acc.1 ++ (flatTuples words wt).map (fun t => t.2.1),
        acc.2.1 ++ (flatTuples words wt).map (fun t => t.1),
        acc.2.2.1 ++ (flatTuples words wt).map (fun t => t.2.2.2),
        acc.2.2.2 ++ (flatTuples words wt).map (fun t => t.2.2.1)) := by
  induction words generalizing acc with
  | nil => simp [optFoldl, flatTuples]
  | cons w ws ih =>
    have hw := h w (List.mem_cons_self w ws)
    cases hlk : wt.lookup w with
    | none => rw [hlk] at hw; simp at hw
    | some tups =>
      simp only [optFoldl, convertStep, hlk]
      rw [ih _ (fun x hx => h x (List.mem_cons_of_mem w hx))]
      simp [flatTuples, hlk, List.append_assoc]

/-- Claim C7: for every ordered word list and a results mapping containing
every listed word, the aggregator produces four parallel sequences of equal
length N (the total tuple count), flattened in word order then original
tuple order; target sentence and target bold word come from the 1st and 3rd
tuple fields, base sentence and base bold word from the 2nd and 4th. -/
theorem convert_tuples_to_records_spec (words : List String)
    (wt : List (String × List Tup4))
    (h : ∀ w ∈ words, (wt.lookup w).isSome) :
    ∃ rs, convert_tuples_to_records words wt = some rs ∧
      rs.target_sentences = (flatTuples words wt).map (fun t => t.1) ∧
      rs.base_sentences = (flatTuples words wt).map (fun t => t.2.1) ∧
      rs.target_bold_words = (flatTuples words wt).map (fun t => t.2.2.1) ∧
      rs.base_bold_words = (flatTuples words wt).map (fun t => t.2.2.2) ∧
      rs.n_records = (flatTuples words wt).length ∧ rs.wf := by
  unfold convert_tuples_to_records
  rw [convert_loop wt words ([], [], [], []) h]
  refine ⟨_, rfl, by simp, by simp, by simp, by simp, by simp, ?_⟩
  unfold RecordSet.wf
  simp

/-- Witness for C7 at the example of the specification: words [a, b] with
a mapping to one tuple and b to two produce the three tuples flattened in
order. -/
theorem convert_tuples_to_records_spec_witness :
    (∃ rs,
      convert_tuples_to_records ["a", "b"]
        [("a", [("t1".data, "u1".data, "v1".data, "w1".data)]),
          ("b", [("t2".data, "u2".data, "v2".data, "w2".data),
            ("t3".data, "u3".data, "v3".data, "w3".data)])] = some rs ∧
      rs.target_sentences =
        (flatTuples ["a", "b"]
          [("a", [("t1".data, "u1".data, "v1".data, "w1".data)]),
            ("b", [("t2".data, "u2".data, "v2".data, "w2".data),
              ("t3".data, "u3".data, "v3".data, "w3".data)])]).map (fun t => t.1) ∧
      rs.base_sentences =
        (flatTuples ["a", "b"]
          [("a", [("t1".data, "u1".data, "v1".data, "w1".data)]),
            ("b", [("t2".data, "u2".data, "v2".data, "w2".data),
              ("t3".data, "u3".data, "v3".data, "w3".data)])]).map (fun t => t.2.1) ∧
      rs.target_bold_words =
        (flatTuples ["a", "b"]
          [("a", [("t1".data, "u1".data, "v1".data, "w1".data)]),
            ("b", [("t2".data, "u2".data, "v2".data, "w2".data),
              ("t3".data, "u3".data, "v3".data, "w3".data)])]).map (fun t => t.2.2.1) ∧
      rs.base_bold_words =
        (flatTuples ["a", "b"]
          [("a", [("t1".data, "u1".data, "v1".data, "w1".data)]),
            ("b", [("t2".data, "u2".data, "v2".data, "w2".data),
              ("t3".data, "u3".data, "v3".data, "w3".data)])]).map (fun t => t.2.2.2) ∧
      rs.n_records =
        (flatTuples ["a", "b"]
          [("a", [("t1".data, "u1".data, "v1".data, "w1".data)]),
            ("b", [("t2".data, "u2".data, "v2".data, "w2".data),
              ("t3".data, "u3".data, "v3".data, "w3".data)])]).length ∧ rs.wf) ∧
    flatTuples ["a", "b"]
      [("a", [("t1".data, "u1".data, "v1".data, "w1".data)]),
        ("b", [("t2".data, "u2".data, "v2".data, "w2".data),
          ("t3".data, "u3".data, "v3".data, "w3".data)])] =
      [("t1".data, "u1".data, "v1".data, "w1".data),
        ("t2".data, "u2".data, "v2".data, "w2".data),
        ("t3".data, "u3".data, "v3".data, "w3".data)] :=
  ⟨convert_tuples_to_records_spec _ _ (by decide), by decide⟩

/-! ### Pagination arithmetic -/

theorem ceil_div_eq (n ts : Nat) (hts : 0 < ts) :
    (n + ts - 1) / ts = n / ts + (if n % ts = 0 then 0 else 1) := by
  have hq := Nat.div_add_mod n ts
  have hr : n % ts < ts := Nat.mod_lt n hts
  by_cases h0 : n % ts = 0
  · rw [if_pos h0]
    have h1 : n + ts - 1 = ts * (n / ts) + (ts - 1) := by omega
    rw [h1, Nat.mul_add_div hts]
    simp [Nat.div_eq_of_lt (by omega : ts - 1 < ts)]
  · rw [if_neg h0]
    have haux : ts * (n / ts + 1) = ts * (n / ts) + ts := by ring
    have h1 : n + ts - 1 = ts * (n / ts + 1) + (n % ts - 1) := by omega
    rw [h1, Nat.mul_add_div hts]
    simp [Nat.div_eq_of_lt (by omega : n % ts - 1 < ts)]

theorem pySlice_min (l : List α) (ts i n : Nat) (hl : l.length = n) :
    pySlice l (i * ts) (min ((i + 1) * ts) n) = (l.drop (i * ts)).take ts := by
  unfold pySlice
  apply List.take_eq_take.mpr
  rw [List.length_drop, hl]
  have h1 : (i + 1) * ts = i * ts + ts := by ring
  omega

theorem chunk_take_len (l : List α) (ts i : Nat) :
    ((l.drop (i * ts)).take ts).length = min ts (l.length - i * ts) := by
  rw [List.length_take, List.length_drop]

theorem join_chunks (l : List α) (ts k : Nat) (hts : 0 < ts)
    (hk : l.length ≤ k * ts) :
    ((List.range k).map (fun i => (l.drop (i * ts)).take ts)).flatten = l := by
  induction k generalizing l with
  | zero =>
    have hnil : l = [] := List.eq_nil_of_length_eq_zero (by simpa using hk)
    simp [hnil]
  | succ k2 ih =>
    have hlen : (l.drop ts).length ≤ k2 * ts := by
      rw [List.length_drop]
      have h1 : (k2 + 1) * ts = k2 * ts + ts := by ring
      omega
    have heq : (List.range (k2 + 1)).map (fun i => (l.drop (i * ts)).take ts) =
        l.take ts ::
          (List.range k2).map (fun i => ((l.drop ts).drop (i * ts)).take ts) := by
      rw [List.range_succ_eq_map, List.map_cons, List.map_map]
      refine congrArg₂ List.cons ?_ ?_
      · simp
      · apply List.map_congr_left
        intro i _
        simp only [Function.comp_apply]
        rw [List.drop_drop]
        have harith : Nat.succ i * ts = ts + i * ts := by
          rw [Nat.succ_mul, Nat.add_comm]
        rw [harith]
    rw [heq]
    simp only [List.flatten_cons]
    rw [ih (l.drop ts) hlen]
    exact List.take_append_drop ts l

/-- Claim C1: for a well-formed RecordSet with N > capacity (capacity =
rows * cols > 0), write_records takes the pagination branch: it renders the
chunks chunkAt 0 .. k-1 where k = ceil(N / capacity) (characterized by
capacity * (k - 1) < N <= capacity * k), names page i with the 1-based
suffix "-(i+1)" appended to the base name, the chunks are contiguous slices
in original order whose concatenation over all four record sequences
reconstructs the RecordSet exactly, every page before the last has size
capacity, and the last page has size N mod capacity (capacity when capacity
divides N). -/
theorem write_records_paginates (c : DocxClient) (tables : List (Nat × Nat))
    (filename : String) (r : RecordSet) (k : Nat) (hwf : r.wf)
    (hts : 0 < c.table_size) (hn : c.table_size < r.n_records)
    (hk : k = (r.n_records + c.table_size - 1) / c.table_size) :
    write_records c tables filename r =
      (optMap (fun i => writeRecordsToDocx c tables (pageName filename i)
        (chunkAt r c.table_size i)) (List.range k)).map
        (fun outs => ((List.range k).map
          (fun i => (name_to_path c (pageName filename i),
            c.flashcardsPref ++ pageName filename i)), outs)) ∧
    (c.table_size * (k - 1) < r.n_records ∧ r.n_records ≤ c.table_size * k) ∧
    ((List.range k).map (fun i => (chunkAt r c.table_size i).base_sentences)).flatten =
      r.base_sentences ∧
    ((List.range k).map (fun i => (chunkAt r c.table_size i).target_sentences)).flatten =
      r.target_sentences ∧
    ((List.range k).map (fun i => (chunkAt r c.table_size i).base_bold_words)).flatten =
      r.base_bold_words ∧
    ((List.range k).map (fun i => (chunkAt r c.table_size i).target_bold_words)).flatten =
      r.target_bold_words ∧
    (∀ i, i + 1 < k →
      (chunkAt r c.table_size i).base_sentences.length = c.table_size ∧
      (chunkAt r c.table_size i).target_sentences.length = c.table_size ∧
      (chunkAt r c.table_size i).base_bold_words.length = c.table_size ∧
      (chunkAt r c.table_size i).target_bold_words.length = c.table_size) ∧
    ((chunkAt r c.table_size (k - 1)).base_sentences.length =
        (if r.n_records % c.table_size = 0 then c.table_size
          else r.n_records % c.table_size) ∧
      (chunkAt r c.table_size (k - 1)).target_sentences.length =
        (if r.n_records % c.table_size = 0 then c.table_size
          else r.n_records % c.table_size) ∧
      (chunkAt r c.table_size (k - 1)).base_bold_words.length =
        (if r.n_records % c.table_size = 0 then c.table_size
          else r.n_records % c.table_size) ∧
      (chunkAt r c.table_size (k - 1)).target_bold_words.length =
        (if r.n_records % c.table_size = 0 then c.table_size
          else r.n_records % c.table_size)) := by
  obtain ⟨hb, ht, hbb, htb⟩ := hwf
  have hq := Nat.div_add_mod r.n_records c.table_size
  have hr : r.n_records % c.table_size < c.table_size := Nat.mod_lt _ hts
  have hceil : k = r.n_records / c.table_size +
      (if r.n_records % c.table_size = 0 then 0 else 1) := by
    rw [hk, ceil_div_eq _ _ hts]
  have hub : r.n_records ≤ c.table_size * k := by
    by_cases h0 : r.n_records % c.table_size = 0
    · rw [hceil, if_pos h0]
      simp only [Nat.add_zero]
      omega
    · rw [hceil, if_neg h0]
      have hmul : c.table_size * (r.n_records / c.table_size + 1) =
          c.table_size * (r.n_records / c.table_size) + c.table_size := by ring
      omega
  have hlb : c.table_size * (k - 1) < r.n_records := by
    by_cases h0 : r.n_records % c.table_size = 0
    · rw [hceil, if_pos h0]
      simp only [Nat.add_zero]
      have h7 : r.n_records / c.table_size ≠ 0 := by
        intro hz
        rw [hz] at hq
        simp at hq
        omega
      have h8 : c.table_size * (r.n_records / c.table_size - 1) + c.table_size =
          c.table_size * (r.n_records / c.table_size) := by
        have h9 : r.n_records / c.table_size - 1 + 1 =
            r.n_records / c.table_size :=
          Nat.succ_pred_eq_of_pos (Nat.pos_of_ne_zero h7)
        calc c.table_size * (r.n_records / c.table_size - 1) + c.table_size
            = c.table_size * (r.n_records / c.table_size - 1 + 1) := by ring
          _ = c.table_size * (r.n_records / c.table_size) := by rw [h9]
      omega
    · rw [hceil, if_neg h0]
      simp only [Nat.add_sub_cancel]
      omega
  have hbranch : write_records c tables filename r =
      (optMap (fun i => writeRecordsToDocx c tables (pageName filename i)
        (chunkAt r c.table_size i)) (List.range k)).map
        (fun outs => ((List.range k).map
          (fun i => (name_to_path c (pageName filename i),
            c.flashcardsPref ++ pageName filename i)), outs)) := by
    rw [hk]
    unfold write_records
    rw [if_neg (by omega), if_neg (by omega)]
  have hjoin : ∀ (l : List PyStr), l.length = r.n_records →
      ((List.range k).map (fun i =>
        pySlice l (i * c.table_size)
          (min ((i + 1) * c.table_size) r.n_records))).flatten = l := by
    intro l hl
    have hcg : ∀ i ∈ List.range k,
        pySlice l (i * c.table_size) (min ((i + 1) * c.table_size) r.n_records) =
          (l.drop (i * c.table_size)).take c.table_size :=
      fun i _ => pySlice_min l c.table_size i r.n_records hl
    rw [List.map_congr_left hcg]
    apply join_chunks l c.table_size k hts
    have hcm : c.table_size * k = k * c.table_size := Nat.mul_comm _ _
    omega
  have hsize : ∀ (l : List PyStr), l.length = r.n_records → ∀ i, i + 1 < k →
      (pySlice l (i * c.table_size)
        (min ((i + 1) * c.table_size) r.n_records)).length = c.table_size := by
    intro l hl i hik
    rw [pySlice_min l c.table_size i r.n_records hl, chunk_take_len, hl]
    have h1 : (i + 1) * c.table_size ≤ (k - 1) * c.table_size :=
      Nat.mul_le_mul_right _ (by omega)
    have h2 : (k - 1) * c.table_size = c.table_size * (k - 1) := Nat.mul_comm _ _
    have h3 : (i + 1) * c.table_size = i * c.table_size + c.table_size := by ring
    omega
  have hk1 : 1 ≤ k := by
    by_contra h
    push_neg at h
    have hz : k = 0 := by omega
    rw [hz] at hub
    simp at hub
    omega
  have hlast : ∀ (l : List PyStr), l.length = r.n_records →
      (pySlice l ((k - 1) * c.table_size)
        (min ((k - 1 + 1) * c.table_size) r.n_records)).length =
        (if r.n_records % c.table_size = 0 then c.table_size
          else r.n_records % c.table_size) := by
    intro l hl
    rw [pySlice_min l c.table_size (k - 1) r.n_records hl, chunk_take_len, hl]
    have h2 : (k - 1) * c.table_size = c.table_size * (k - 1) := Nat.mul_comm _ _
    have h3 : c.table_size * k = c.table_size * (k - 1) + c.table_size := by
      have h4 : k - 1 + 1 = k := by omega
      calc c.table_size * k = c.table_size * (k - 1 + 1) := by rw [h4]
        _ = c.table_size * (k - 1) + c.table_size := by ring
    by_cases h0 : r.n_records % c.table_size = 0
    · rw [if_pos h0]
      have h6 : k = r.n_records / c.table_size := by
        rw [hceil, if_pos h0, Nat.add_zero]
      have h5 : c.table_size * k = r.n_records := by
        rw [h6]
        omega
      omega
    · rw [if_neg h0]
      have h6 : k = r.n_records / c.table_size + 1 := by
        rw [hceil, if_neg h0]
      have h5 : c.table_size * (k - 1) = r.n_records - r.n_records % c.table_size := by
        rw [h6]
        simp only [Nat.add_sub_cancel]
        omega
      omega
  refine ⟨hbranch, ⟨hlb, hub⟩, hjoin r.base_sentences hb,
    hjoin r.target_sentences ht, hjoin r.base_bold_words hbb,
    hjoin r.target_bold_words htb, ?_, ?_⟩
  · intro i hik
    exact ⟨hsize r.base_sentences hb i hik, hsize r.target_sentences ht i hik,
      hsize r.base_bold_words hbb i hik, hsize r.target_bold_words htb i hik⟩
  · exact ⟨hlast r.base_sentences hb, hlast r.target_sentences ht,
      hlast r.base_bold_words hbb, hlast r.target_bold_words htb⟩

/-! ### Concrete fixtures -/

/-- The default client: output/ folder, flashcards prefix, a 4 x 3 grid. -/
def cEx : DocxClient := ⟨"output/", "flashcards", 4, 3, "Arial", "Arial", 15⟩

/-- A template whose two tables both have the configured 4 x 3 dimensions. -/
def tablesEx : List (Nat × Nat) := [(4, 3), (4, 3)]

/-- A template whose first table is 3 x 3 instead of 4 x 3. -/
def badTablesEx : List (Nat × Nat) := [(3, 3), (4, 3)]

/-- A well-formed RecordSet with zero records. -/
def recsEmpty : RecordSet := ⟨[], [], [], [], 0⟩

/-- A well-formed RecordSet with 14 records. -/
def recs14 : RecordSet :=
  ⟨List.replicate 14 ['s'], List.replicate 14 ['t'],
    List.replicate 14 ['w'], List.replicate 14 ['w'], 14⟩

/-- Witness for C1 at the example of the specification: capacity 12 and
N = 14 give two pages of sizes 12 and 2 named t-1 and t-2. -/
theorem write_records_paginates_witness :
    (write_records cEx tablesEx "t" recs14 =
      (optMap (fun i => writeRecordsToDocx cEx tablesEx (pageName "t" i)
        (chunkAt recs14 cEx.table_size i)) (List.range 2)).map
        (fun outs => ((List.range 2).map
          (fun i => (name_to_path cEx (pageName "t" i),
            cEx.flashcardsPref ++ pageName "t" i)), outs))) ∧
    ((chunkAt recs14 cEx.table_size 0).base_sentences.length = 12 ∧
      (chunkAt recs14 cEx.table_size 1).base_sentences.length = 2) ∧
    (write_records cEx tablesEx "t" recs14).map (fun res => res.1) =
      some [("output/flashcardst-1.docx", "flashcardst-1"),
        ("output/flashcardst-2.docx", "flashcardst-2")] :=
  ⟨(write_records_paginates cEx tablesEx "t" recs14 2
      (by unfold RecordSet.wf; simp [recs14]) (by decide) (by decide) (by decide)).1,
    by decide, by decide⟩

/-- Counterexample to claim C2 as stated: with zero records the paginator
still returns one page pair and the document writer runs and saves a
document, rather than returning zero pages with no document. -/
theorem paginate_zero_records_counterexample :
    (write_records cEx tablesEx "t" recsEmpty).map
      (fun res => (res.1, res.2.map WriteOutcome.isSaved)) =
      some ([(name_to_path cEx "t", "t")], [true]) := by decide

/-- Claim C2 (amended): every RecordSet with N ≤ capacity, N = 0 included,
takes the single-page branch: exactly one unsuffixed page holding all the
records, with one invocation of the document writer on the full RecordSet
(so for N = 0 with a valid template an empty document is produced, not
zero pages); in particular for 0 < N ≤ capacity there is exactly one page
containing all records, with no suffix. -/
theorem single_page_branch (c : DocxClient) (tables : List (Nat × Nat))
    (filename : String) (r : RecordSet) (h : r.n_records ≤ c.table_size) :
    write_records c tables filename r =
      (writeRecordsToDocx c tables filename r).map
        (fun o => ([(name_to_path c filename, filename)], [o])) := by
  unfold write_records
  rw [if_pos h]

/-- Witness for the amended C2 at N = 0. -/
theorem single_page_branch_witness :
    write_records cEx tablesEx "t" recsEmpty =
      (writeRecordsToDocx cEx tablesEx "t" recsEmpty).map
        (fun o => ([(name_to_path cEx "t", "t")], [o])) :=
  single_page_branch cEx tablesEx "t" recsEmpty (by decide)

/-- Counterexample to claim C8 as stated: with a first template table of
dimensions 3 x 3 instead of 4 x 3 both pages of a 14-record run fail, but
the printed message contains neither failing output name (t-1 or t-2), and
the returned path/name list is identical to the one of a fully successful
run, so the caller is not informed which pages failed. -/
theorem dim_mismatch_counterexample :
    (write_records cEx badTablesEx "t" recs14).map (fun res => res.2) =
      some [WriteOutcome.dimMismatch 1 (mismatchMsg 1 (3, 3) (4, 3)),
        WriteOutcome.dimMismatch 1 (mismatchMsg 1 (3, 3) (4, 3))] ∧
    findSub "t-1".data (mismatchMsg 1 (3, 3) (4, 3)).data = none ∧
    findSub "t-2".data (mismatchMsg 1 (3, 3) (4, 3)).data = none ∧
    (write_records cEx badTablesEx "t" recs14).map (fun res => res.1) =
      (write_records cEx tablesEx "t" recs14).map (fun res => res.1) :=
  ⟨by decide, by decide, by decide, by decide⟩

/-- A template whose second table is 3 x 3 instead of 4 x 3. -/
def badTables2Ex : List (Nat × Nat) := [(4, 3), (3, 3)]

/-- The outcome of the dimension check of _write_records_to_docx for a
template with at least two tables whose first or second table dimensions
differ from the configured pair: the first failing table aborts the render
with its table number, its dimensions and the expected dimensions in the
printed message. -/
def firstDimMismatch (c : DocxClient) (tables : List (Nat × Nat)) : WriteOutcome :=
  if tables.getD 0 (0, 0) ≠ (c.n_rows, c.n_cols) then
    .dimMismatch 1 (mismatchMsg 1 (tables.getD 0 (0, 0)) (c.n_rows, c.n_cols))
  else
    .dimMismatch 2 (mismatchMsg 2 (tables.getD 1 (0, 0)) (c.n_rows, c.n_cols))

/-- Claim C8 (amended): when the template grid dimensions do not match the
configured rows and cols (in either of the two checked tables), every page
render aborts at the check before any cell is written and nothing is saved
(the per-page outcome carries only the number of the first failing table
and the printed message, which reports the actual and expected dimension
pairs but not the output name); every remaining page is still attempted
(one dimMismatch outcome per page), and the returned (path, name) pairs
are exactly the same list as on success, so the caller is not told which
pages failed. -/
theorem dim_mismatch_pages (c : DocxClient) (tables : List (Nat × Nat))
    (filename : String) (r : RecordSet)
    (hlen : 2 ≤ tables.length)
    (hdim : tables.getD 0 (0, 0) ≠ (c.n_rows, c.n_cols) ∨
      tables.getD 1 (0, 0) ≠ (c.n_rows, c.n_cols))
    (hts : 0 < c.table_size) (hn : c.table_size < r.n_records) :
    write_records c tables filename r =
      some (((List.range ((r.n_records + c.table_size - 1) / c.table_size)).map
          (fun i => (name_to_path c (pageName filename i),
            c.flashcardsPref ++ pageName filename i))),
        (List.range ((r.n_records + c.table_size - 1) / c.table_size)).map
          (fun _ => firstDimMismatch c tables)) ∧
    (firstDimMismatch c tables).isSaved = false := by
  constructor
  · have hpage : ∀ i ∈ List.range ((r.n_records + c.table_size - 1) / c.table_size),
        writeRecordsToDocx c tables (pageName filename i) (chunkAt r c.table_size i) =
          some (firstDimMismatch c tables) := by
      intro i _
      unfold writeRecordsToDocx firstDimMismatch
      rw [if_neg (by omega)]
      by_cases h0 : tables.getD 0 (0, 0) ≠ (c.n_rows, c.n_cols)
      · rw [if_pos h0, if_pos h0]
      · rw [if_neg h0, if_neg h0, if_pos (hdim.resolve_left h0)]
    have hconst := optMap_const_some _ _ _ hpage
    unfold write_records
    rw [if_neg (by omega), if_neg (by omega), hconst]
    rfl
  · unfold firstDimMismatch
    by_cases h0 : tables.getD 0 (0, 0) ≠ (c.n_rows, c.n_cols)
    · rw [if_pos h0]
      rfl
    · rw [if_neg h0]
      rfl

/-- Witness for the amended C8 at the 14-record fixture, once with the
first table mismatching and once with the second table mismatching. -/
theorem dim_mismatch_pages_witness :
    (write_records cEx badTablesEx "t" recs14 =
      some (((List.range ((recs14.n_records + cEx.table_size - 1) / cEx.table_size)).map
          (fun i => (name_to_path cEx (pageName "t" i),
            cEx.flashcardsPref ++ pageName "t" i))),
        (List.range ((recs14.n_records + cEx.table_size - 1) / cEx.table_size)).map
          (fun _ => firstDimMismatch cEx badTablesEx)) ∧
      (firstDimMismatch cEx badTablesEx).isSaved = false) ∧
    (write_records cEx badTables2Ex "t" recs14 =
      some (((List.range ((recs14.n_records + cEx.table_size - 1) / cEx.table_size)).map
          (fun i => (name_to_path cEx (pageName "t" i),
            cEx.flashcardsPref ++ pageName "t" i))),
        (List.range ((recs14.n_records + cEx.table_size - 1) / cEx.table_size)).map
          (fun _ => firstDimMismatch cEx badTables2Ex)) ∧
      (firstDimMismatch cEx badTables2Ex).isSaved = false) :=
  ⟨dim_mismatch_pages cEx badTablesEx "t" recs14 (by decide) (by decide)
      (by decide) (by decide),
    dim_mismatch_pages cEx badTables2Ex "t" recs14 (by decide) (by decide)
      (by decide) (by decide)⟩

/-- Claim C9: the display name handed to the upload collaborator carries the
flashcards prefix exactly when more than one page is produced: for
N ≤ capacity the single pair is (folder + prefix + filename + ".docx",
filename) with the bare filename as display name; for N > capacity every
pair is (folder + prefix + filename + "-i" + ".docx",
prefix + filename + "-i").  The saved path always carries the prefix. -/
theorem display_name_prefix_rule (c : DocxClient) (tables : List (Nat × Nat))
    (filename : String) (r : RecordSet) :
    (r.n_records ≤ c.table_size →
      write_records c tables filename r =
        (writeRecordsToDocx c tables filename r).map
          (fun o => ([(c.folder ++ c.flashcardsPref ++ filename ++ ".docx",
            filename)], [o]))) ∧
    (c.table_size < r.n_records → 0 < c.table_size →
      ∀ pairs outs, write_records c tables filename r = some (pairs, outs) →
        pairs = (List.range ((r.n_records + c.table_size - 1) / c.table_size)).map
          (fun i => (c.folder ++ c.flashcardsPref ++ (filename ++ "-" ++
              toString (i + 1)) ++ ".docx",
            c.flashcardsPref ++ (filename ++ "-" ++ toString (i + 1))))) := by
  constructor
  · intro h
    unfold write_records
    rw [if_pos h]
    rfl
  · intro hn hts pairs outs heq
    unfold write_records at heq
    rw [if_neg (by omega), if_neg (by omega)] at heq
    cases ho : optMap (fun i => writeRecordsToDocx c tables (pageName filename i)
        (chunkAt r c.table_size i))
        (List.range ((r.n_records + c.table_size - 1) / c.table_size)) with
    | none => rw [ho] at heq; simp at heq
    | some os =>
      rw [ho] at heq
      simp only [Option.map_some'] at heq
      have h2 := Option.some.inj heq
      have h3 := congrArg Prod.fst h2
      exact h3.symm

/-- Witness for C9 at the single-page fixture: the display name is the bare
filename while the path carries the prefix. -/
theorem display_name_prefix_rule_witness :
    write_records cEx tablesEx "t" recsEmpty =
      (writeRecordsToDocx cEx tablesEx "t" recsEmpty).map
        (fun o => ([(cEx.folder ++ cEx.flashcardsPref ++ "t" ++ ".docx", "t")],
          [o])) :=
  (display_name_prefix_rule cEx tablesEx "t" recsEmpty).1 (by decide)
